import Mathlib

/-!
Verification of the Personal Finance Tracker (`personal_finance_tracker.py`).

The program's data model and operations are embedded shallowly:

* Python strings are modelled as `List Char` (`Str`); Python's string
  operations used by the program (slicing, `split`, `lower`, lexicographic
  comparison) are given as directly recursive functions on character lists.
* Python floats are modelled as `ℚ`.  Every amount appearing in the
  program's own tests and demo data is exactly representable, and none of
  the verified properties depend on rounding.
* Fallible operations return `Except PyFault`, where a `.error` value
  models a Python exception that escapes the function (an unhandled fault
  from the caller's point of view).
* The filesystem seen by the persistence layer is a map from path to
  `FileState`; `json.load`'s result is modelled by the inductive `JVal`.
-/

/-- Python strings, modelled as lists of characters. -/
abbrev Str := List Char

/-- Lexicographic strict comparison of strings by code point, as Python's
`<` on `str`. -/
def strLt : Str → Str → Bool
  | [], [] => false
  | [], _ :: _ => true
  | _ :: _, [] => false
  | a :: as, b :: bs => if a < b then true else if b < a then false else strLt as bs

/-- Python's `<=` on strings (`a <= b` iff `not (b < a)`). -/
def strLe (a b : Str) : Bool := !strLt b a

/-- Python's `str.lower()`, character by character. -/
def strLower (s : Str) : Str := s.map Char.toLower

/-- Python's `str.split(sep)` for a one-character separator. -/
def splitOnChar (sep : Char) : Str → List Str
  | [] => [[]]
  | c :: rest =>
    if c = sep then [] :: splitOnChar sep rest
    else
      match splitOnChar sep rest with
      | [] => [[c]]
      | g :: gs => (c :: g) :: gs

/-- Whether every character of the string is an ASCII digit. -/
def allDigits (s : Str) : Bool := s.all Char.isDigit

/-- Numeric value of a string of ASCII digits. -/
def digitsVal (s : Str) : ℕ := s.foldl (fun n c => 10 * n + (c.toNat - '0'.toNat)) 0

/-- A calendar date as produced by `datetime.strptime(s, "%Y-%m-%d")`. -/
structure PyDate where
  year : ℕ
  month : ℕ
  day : ℕ
deriving DecidableEq, Repr

/-- Number of days of a month, with the Gregorian leap-year rule used by
`datetime`. -/
def daysInMonth (y m : ℕ) : ℕ :=
  if m = 2 then
    if y % 4 = 0 ∧ (y % 100 ≠ 0 ∨ y % 400 = 0) then 29 else 28
  else if m = 4 ∨ m = 6 ∨ m = 9 ∨ m = 11 then 30 else 31

/-- Model of `datetime.strptime(s, "%Y-%m-%d")`: `%Y` matches exactly four
digits, `%m` and `%d` one or two digits, the whole string must be consumed,
and the fields must form a valid calendar date (`datetime` additionally
rejects year `0` and a day beyond the month's length).  `none` models the
`ValueError` raised on failure. -/
def parse_date (s : Str) : Option PyDate :=
  match splitOnChar '-' s with
  | [ys, ms, ds] =>
    if ys.length = 4 ∧ allDigits ys
        ∧ 1 ≤ ms.length ∧ ms.length ≤ 2 ∧ allDigits ms
        ∧ 1 ≤ ds.length ∧ ds.length ≤ 2 ∧ allDigits ds then
      let y := digitsVal ys
      let m := digitsVal ms
      let d := digitsVal ds
      if 1 ≤ y ∧ 1 ≤ m ∧ m ≤ 12 ∧ 1 ≤ d ∧ d ≤ daysInMonth y m then
        some ⟨y, m, d⟩
      else none
    else none
  | _ => none

/-- Comparison of `datetime` values restricted to dates:
field-lexicographic. -/
def dateLt (a b : PyDate) : Bool :=
  decide (a.year < b.year ∨ (a.year = b.year ∧
    (a.month < b.month ∨ (a.month = b.month ∧ a.day < b.day))))

/-- The `Transaction` dataclass: `id`, `date`, `amount`, `category`,
`ttype` (`'income'` or `'expense'`), `description`. -/
structure Transaction where
  id : ℤ
  date : Str
  amount : ℚ
  category : Str
  ttype : Str
  description : Str
deriving DecidableEq, Repr

/-- Python exceptions that can escape the embedded functions. -/
inductive PyFault where
  | keyError
  | valueError
  | typeError
deriving DecidableEq, Repr

/-- Python's `abs` on a float. -/
def pyAbs (q : ℚ) : ℚ := if q < 0 then -q else q

/-- `filter_expenses_over(transactions, amount_threshold)`:
`[t for t in transactions if t.ttype == 'expense' and abs(t.amount) > amount_threshold]`. -/
def filter_expenses_over (transactions : List Transaction) (amount_threshold : ℚ) :
    List Transaction :=
  transactions.filter fun t =>
    t.ttype = "expense".data ∧ amount_threshold < pyAbs t.amount

/-- Truthiness of the optional date-bound strings in
`filter_by_date_range`: `None` and the empty string are falsy. -/
def truthyOptStr : Option Str → Bool
  | none => false
  | some s => s ≠ []

/-- One bound check of `filter_by_date_range`: evaluates
`bound and cmp dt (to_dt bound)`, where parsing the bound can raise. -/
def boundSkips (dt : PyDate) (bound : Option Str) (cmp : PyDate → PyDate → Bool) :
    Except PyFault Bool :=
  if truthyOptStr bound = true then
    match bound with
    | none => .ok false
    | some s =>
      match parse_date s with
      | none => .error .valueError
      | some b => .ok (cmp dt b)
  else .ok false

/-- `filter_by_date_range(transactions, start_date, end_date)`: every
record's date is parsed with `to_dt`; a record is skipped when it falls
before a truthy `start_date` or after a truthy `end_date`; a `ValueError`
from any `to_dt` call escapes the whole function. -/
def filter_by_date_range (transactions : List Transaction)
    (start_date end_date : Option Str) : Except PyFault (List Transaction) :=
  match transactions with
  | [] => .ok []
  | t :: rest =>
    match parse_date t.date with
    | none => .error .valueError
    | some dt =>
      match boundSkips dt start_date (fun a b => dateLt a b) with
      | .error e => .error e
      | .ok true => filter_by_date_range rest start_date end_date
      | .ok false =>
        match boundSkips dt end_date (fun a b => dateLt b a) with
        | .error e => .error e
        | .ok true => filter_by_date_range rest start_date end_date
        | .ok false =>
          match filter_by_date_range rest start_date end_date with
          | .error e => .error e
          | .ok res => .ok (t :: res)

/-- `balance_summary(transactions)`, returning
`(income, expenses, savings)`.  Note the fourth sum
(`other_neg_expenses`) re-counts every negative-amount non-income record;
when it is non-zero (Python truthiness of a float) it is added to
`expenses` a second time. -/
def balance_summary (transactions : List Transaction) : ℚ × ℚ × ℚ :=
  let income :=
    ((transactions.filter fun t => t.ttype = "income".data).map (·.amount)).sum
  let expenses_pos :=
    ((transactions.filter fun t => t.ttype = "expense".data ∧ 0 ≤ t.amount).map
      (·.amount)).sum
  let expenses_neg :=
    ((transactions.filter fun t => t.ttype = "expense".data ∧ t.amount < 0).map
      (fun t => -t.amount)).sum
  let other_neg_expenses :=
    ((transactions.filter fun t => t.ttype ≠ "income".data ∧ t.amount < 0).map
      (fun t => -t.amount)).sum
  let expenses := expenses_pos + expenses_neg
  let expenses := if other_neg_expenses ≠ 0 then expenses + other_neg_expenses else expenses
  let savings := income - expenses
  (income, expenses, savings)

/-- Lookup in a Python dict modelled as an insertion-ordered association
list: `d.get(k, dflt)`. -/
def dictGetD (d : List (Str × ℚ)) (k : Str) (dflt : ℚ) : ℚ :=
  match d with
  | [] => dflt
  | (k', v') :: rest => if k' = k then v' else dictGetD rest k dflt

/-- Optional lookup in a dict modelled as an association list (`d[k]`
when present). -/
def dictGet? (d : List (Str × ℚ)) (k : Str) : Option ℚ :=
  match d with
  | [] => none
  | (k', v') :: rest => if k' = k then some v' else dictGet? rest k

/-- Assignment `d[k] = v` on a Python dict: an existing key keeps its
position, a new key is appended. -/
def dictSet (d : List (Str × ℚ)) (k : Str) (v : ℚ) : List (Str × ℚ) :=
  match d with
  | [] => [(k, v)]
  | (k', v') :: rest => if k' = k then (k', v) :: rest else (k', v') :: dictSet rest k v

/-- Stable insertion of `x` into a sorted list: `x` is placed before the
first element `y` with `le x y`, hence before every element it ties with. -/
def pysortInsert (le : α → α → Bool) (x : α) : List α → List α
  | [] => [x]
  | y :: ys => if le x y then x :: y :: ys else y :: pysortInsert le x ys

/-- Stable sort with respect to the boolean total preorder `le`.  Python's
`sorted` (Timsort) is a stable sort, and a stable sort's output is uniquely
determined by the order and the input, so any stable sort models it. -/
def pysort (le : α → α → Bool) : List α → List α
  | [] => []
  | x :: xs => pysortInsert le x (pysort le xs)

/-- Python's `sorted(l, key=..., reverse=reverse)`: with `reverse=True`
CPython reverses the list, sorts it ascending (stably), and reverses the
result again, so that equal keys keep their original relative order. -/
def pysorted (le : α → α → Bool) (reverse : Bool) (l : List α) : List α :=
  if reverse then (pysort le l.reverse).reverse else pysort le l

/-- Strict lexicographic comparison on `(month, total)` pairs, as Python's
`<` on tuples (used by `sorted(totals.items())`). -/
def pairLt (p q : Str × ℚ) : Bool :=
  strLt p.1 q.1 || (decide (p.1 = q.1) && decide (p.2 < q.2))

/-- Tuple `<=` derived from tuple `<`. -/
def pairLe (p q : Str × ℚ) : Bool := !pairLt q p

/-- Loop body of `monthly_spending`: skip non-expense records, otherwise
`totals[month] = totals.get(month, 0) + abs(t.amount)` with
`month = t.date[:7]`. -/
def monthStep (totals : List (Str × ℚ)) (t : Transaction) : List (Str × ℚ) :=
  if t.ttype ≠ "expense".data then totals
  else
    let month := t.date.take 7
    dictSet totals month (dictGetD totals month 0 + pyAbs t.amount)

/-- `monthly_spending(transactions)`: for every `'expense'` record the
first seven characters of its date are the month key and `abs(amount)` is
accumulated; the insertion-ordered dict is finally rebuilt in ascending
key order by `dict(sorted(totals.items()))`. -/
def monthly_spending (transactions : List Transaction) : List (Str × ℚ) :=
  let totals := transactions.foldl monthStep []
  pysort pairLe totals

/-- The key comparison selected by `list_transactions`' `sort_key`
argument.  For `'date'` the comparison is on the parsed dates; the
`getD` default is never reached because `list_transactions` fails first
when any date is unparsable. -/
def keyLe (sort_key : Option Str) : Transaction → Transaction → Bool :=
  if sort_key = some "date".data then
    fun a b => !dateLt ((parse_date b.date).getD ⟨0, 0, 0⟩) ((parse_date a.date).getD ⟨0, 0, 0⟩)
  else if sort_key = some "amount".data then
    fun a b => decide (a.amount ≤ b.amount)
  else if sort_key = some "category".data then
    fun a b => strLe (strLower a.category) (strLower b.category)
  else
    fun a b => decide (a.id ≤ b.id)

/-- `list_transactions(transactions, sort_key, reverse)`:
`sorted(transactions, key=keyfn, reverse=reverse)` where `keyfn` is chosen
by `sort_key` (any value other than `'date'`, `'amount'`, `'category'`
falls back to the id key).  With the `'date'` key, `strptime` raises
`ValueError` as soon as some record's date is unparsable, which escapes
the whole call. -/
def list_transactions (transactions : List Transaction) (sort_key : Option Str)
    (reverse : Bool) : Except PyFault (List Transaction) :=
  if sort_key = some "date".data ∧ ∃ t ∈ transactions, parse_date t.date = none then
    .error .valueError
  else
    .ok (pysorted (keyLe sort_key) reverse transactions)

/-- The call `list_transactions(transactions, ...)` together with the state
of the caller's collection after the call: `sorted` allocates a fresh list,
so the collection (first component) is handed back unchanged. -/
def list_transactions_call (transactions : List Transaction) (sort_key : Option Str)
    (reverse : Bool) : List Transaction × Except PyFault (List Transaction) :=
  (transactions, list_transactions transactions sort_key reverse)

/-- A JSON value as returned by `json.load`. -/
inductive JVal where
  | jnull
  | jbool (b : Bool)
  | jnum (q : ℚ)
  | jstr (s : Str)
  | jarr (elems : List JVal)
  | jobj (fields : List (Str × JVal))

/-- What reading one path can yield: the file may be absent, opening or
reading it may raise `OSError`, `json.load` may raise `JSONDecodeError`,
or decoding succeeds with a `JVal`. -/
inductive FileState where
  | absent
  | osError
  | badJson
  | json (v : JVal)

/-- The filesystem as seen through `os.path.exists`/`open`/`json.load`. -/
abbrev FileSys := Str → FileState

/-- States of a load candidate that `load_transactions` recovers from
(skipping to the next candidate): missing file, `OSError`, or
`JSONDecodeError`. -/
def recoverableB : FileState → Bool
  | .absent => true
  | .osError => true
  | .badJson => true
  | .json _ => false

/-- The process-wide temporary directory (`tempfile.gettempdir()`),
modelled as a fixed location. -/
def tempDir : Str := "/tmp".data

/-- `os.path.join(tempfile.gettempdir(), name)`. -/
def tmpJoin (name : Str) : Str := tempDir ++ '/' :: name

/-- `os.path.basename`: the part after the last `'/'`. -/
def basename (p : Str) : Str := (splitOnChar '/' p).getLastD p

/-- `DEFAULT_SAVE_FILE = os.path.join(tempfile.gettempdir(), "transactions.json")`. -/
def DEFAULT_SAVE_FILE : Str := tmpJoin "transactions.json".data

/-- First-match lookup `d[key]` on a decoded JSON object. -/
def objGet? (fields : List (Str × JVal)) (key : Str) : Option JVal :=
  match fields with
  | [] => none
  | (k, v) :: rest => if k = key then some v else objGet? rest key

/-- `d.get(key, dflt)` on a decoded JSON object. -/
def objGetD (fields : List (Str × JVal)) (key : Str) (dflt : JVal) : JVal :=
  match objGet? fields key with
  | some v => v
  | none => dflt

/-- Truncation of a rational toward zero, as `int()` applied to a float. -/
def ratTrunc (q : ℚ) : ℤ := q.num.tdiv q.den

/-- `int(x)` on a decoded JSON value: numbers are truncated toward zero,
strings must spell an optionally signed decimal integer (surrounding
blanks allowed; other literal forms such as underscores are not modelled),
booleans count as `0`/`1`, and anything else raises `TypeError`. -/
def pyInt (v : JVal) : Except PyFault ℤ :=
  match v with
  | .jnum q => .ok (ratTrunc q)
  | .jbool b => .ok (if b then 1 else 0)
  | .jstr s =>
    let s := ((s.dropWhile (· = ' ')).reverse.dropWhile (· = ' ')).reverse
    match s with
    | '-' :: ds => if ds ≠ [] ∧ allDigits ds then .ok (-(digitsVal ds : ℤ)) else .error .valueError
    | '+' :: ds => if ds ≠ [] ∧ allDigits ds then .ok (digitsVal ds : ℤ) else .error .valueError
    | ds => if ds ≠ [] ∧ allDigits ds then .ok (digitsVal ds : ℤ) else .error .valueError
  | _ => .error .typeError

/-- Value of an unsigned decimal literal with an optional fractional part
(`"12"`, `"12.5"`, `".5"`, `"12."`). -/
def decimalVal? (s : Str) : Option ℚ :=
  match splitOnChar '.' s with
  | [ip] => if ip ≠ [] ∧ allDigits ip then some (digitsVal ip) else none
  | [ip, fp] =>
    if (ip ≠ [] ∨ fp ≠ []) ∧ allDigits ip ∧ allDigits fp then
      some ((digitsVal ip : ℚ) + (digitsVal fp : ℚ) / (10 : ℚ) ^ fp.length)
    else none
  | _ => none

/-- `float(x)` on a decoded JSON value: numbers pass through, strings must
spell an optionally signed decimal (exponents, `inf` and `nan` are not
modelled), booleans count as `0.0`/`1.0`, anything else raises
`TypeError`. -/
def pyFloat (v : JVal) : Except PyFault ℚ :=
  match v with
  | .jnum q => .ok q
  | .jbool b => .ok (if b then 1 else 0)
  | .jstr s =>
    let s := ((s.dropWhile (· = ' ')).reverse.dropWhile (· = ' ')).reverse
    match s with
    | '-' :: ds => match decimalVal? ds with
      | some q => .ok (-q)
      | none => .error .valueError
    | '+' :: ds => match decimalVal? ds with
      | some q => .ok q
      | none => .error .valueError
    | ds => match decimalVal? ds with
      | some q => .ok q
      | none => .error .valueError
  | _ => .error .typeError

/-- `str(x)` on a decoded JSON value.  It never raises; the renderings of
non-string values approximate Python's (the program only ever applies it
to values that are already strings). -/
def pyStr (v : JVal) : Str :=
  match v with
  | .jstr s => s
  | .jnull => "None".data
  | .jbool true => "True".data
  | .jbool false => "False".data
  | .jnum q => (if q.num < 0 then ['-'] else []) ++ Nat.toDigits 10 q.num.natAbs
  | .jarr _ => "[...]".data
  | .jobj _ => "\x7b...\x7d".data

/-- `Transaction.from_dict(d)`: the required keys `id`, `date`, `amount`
are looked up (a missing one raises `KeyError`) and coerced in argument
order; `category`, `ttype`, `description` fall back to `''`, `'expense'`,
`''`.  A non-object element raises `TypeError` when subscripted. -/
def Transaction.from_dict (v : JVal) : Except PyFault Transaction :=
  match v with
  | .jobj fields =>
    match objGet? fields "id".data with
    | none => .error .keyError
    | some jid =>
      match pyInt jid with
      | .error e => .error e
      | .ok id =>
        match objGet? fields "date".data with
        | none => .error .keyError
        | some jdate =>
          let date := pyStr jdate
          match objGet? fields "amount".data with
          | none => .error .keyError
          | some jamount =>
            match pyFloat jamount with
            | .error e => .error e
            | .ok amount =>
              let category := pyStr (objGetD fields "category".data (.jstr []))
              let ttype := pyStr (objGetD fields "ttype".data (.jstr "expense".data))
              let description := pyStr (objGetD fields "description".data (.jstr []))
              .ok ⟨id, date, amount, category, ttype, description⟩
  | _ => .error .typeError

/-- `Transaction.to_dict` (`dataclasses.asdict`), serialized by
`json.dump` with the declared field order. -/
def Transaction.to_dict (t : Transaction) : JVal :=
  .jobj [("id".data, .jnum t.id), ("date".data, .jstr t.date),
    ("amount".data, .jnum t.amount), ("category".data, .jstr t.category),
    ("ttype".data, .jstr t.ttype), ("description".data, .jstr t.description)]

/-- Python iteration `for d in data` over a decoded JSON value: a list
yields its elements, a string its one-character substrings, an object its
keys; a number, boolean or `None` raises `TypeError`. -/
def pyIterate (v : JVal) : Except PyFault (List JVal) :=
  match v with
  | .jarr elems => .ok elems
  | .jstr s => .ok (s.map fun c => .jstr [c])
  | .jobj fields => .ok (fields.map fun kv => .jstr kv.1)
  | _ => .error .typeError

/-- The comprehension `[Transaction.from_dict(d) for d in data]`; the
first exception raised by `from_dict` escapes. -/
def fromDictAll : List JVal → Except PyFault (List Transaction)
  | [] => .ok []
  | v :: rest =>
    match Transaction.from_dict v with
    | .error e => .error e
    | .ok t =>
      match fromDictAll rest with
      | .error e => .error e
      | .ok ts => .ok (t :: ts)

/-- Body of `load_transactions`' candidate loop for one decoded file:
iterate over the data and convert each element.  Exceptions raised here
are neither `OSError` nor `JSONDecodeError`, so the surrounding `try`
does not catch them. -/
def parseRecords (v : JVal) : Except PyFault (List Transaction) :=
  match pyIterate v with
  | .error e => .error e
  | .ok items => fromDictAll items

/-- The ordered candidate list tried by `load_transactions`: the requested
path, then the default path (when different), then the temp-directory
variant of the requested file name (when not already listed). -/
def load_candidates (filename : Str) : List Str :=
  let candidates := [filename]
  let candidates :=
    if filename ≠ DEFAULT_SAVE_FILE then candidates ++ [DEFAULT_SAVE_FILE] else candidates
  let fallback := tmpJoin (basename filename)
  if fallback ∈ candidates then candidates else candidates ++ [fallback]

/-- The candidate loop of `load_transactions`: a missing file is skipped,
`OSError` and `JSONDecodeError` are caught (a warning is printed) and the
next candidate is tried, the first successfully parsed candidate is
returned, and any other exception escapes. -/
def loadLoop (fs : FileSys) : List Str → Except PyFault (List Transaction)
  | [] => .ok []
  | path :: rest =>
    match fs path with
    | .absent => loadLoop fs rest
    | .osError => loadLoop fs rest
    | .badJson => loadLoop fs rest
    | .json v =>
      match parseRecords v with
      | .error e => .error e
      | .ok txs => .ok txs

/-- `load_transactions(filename)` over a modelled filesystem. -/
def load_transactions (fs : FileSys) (filename : Str) : Except PyFault (List Transaction) :=
  loadLoop fs (load_candidates filename)

/-- `save_transactions(transactions, filename)` over a modelled
filesystem.  `writable` is the oracle for `_preferred_writable_path`'s
write test (on failure the target falls back to the temp directory);
`openFails` models an `OSError` from the final `open`/`json.dump`, which
is caught and reported as a `False` return with the filesystem unchanged. -/
def save_transactions (fs : FileSys) (writable openFails : Str → Bool)
    (transactions : List Transaction) (filename : Str) : FileSys × Bool :=
  let target := if writable filename then filename else tmpJoin (basename filename)
  if openFails target then (fs, false)
  else
    (fun p => if p = target then .json (.jarr (transactions.map Transaction.to_dict)) else fs p,
      true)

/-- The four partial sums computed by `balance_summary`, named for use in
its specification: the raw sum of income amounts. -/
def incomeSum (l : List Transaction) : ℚ :=
  ((l.filter fun t => t.ttype = "income".data).map (·.amount)).sum

/-- Sum of the amounts of expense records recorded non-negative. -/
def expPosSum (l : List Transaction) : ℚ :=
  ((l.filter fun t => t.ttype = "expense".data ∧ 0 ≤ t.amount).map (·.amount)).sum

/-- Sum of the magnitudes of expense records recorded negative. -/
def expNegSum (l : List Transaction) : ℚ :=
  ((l.filter fun t => t.ttype = "expense".data ∧ t.amount < 0).map (fun t => -t.amount)).sum

/-- Sum of the magnitudes of negative-amount records of any non-income
type (the overlapping second pass of `balance_summary`). -/
def otherNegSum (l : List Transaction) : ℚ :=
  ((l.filter fun t => t.ttype ≠ "income".data ∧ t.amount < 0).map (fun t => -t.amount)).sum

/-- Total spending of month `m`: the sum of `abs(amount)` over the expense
records whose date starts with `m` (the reference value for
`monthly_spending`). -/
def monthSum (txs : List Transaction) (m : Str) : ℚ :=
  ((txs.filter fun t => t.ttype = "expense".data ∧ t.date.take 7 = m).map
    (fun t => pyAbs t.amount)).sum

/-- The two-record collection built by the program's own self test
(`run_self_tests`, "balance summary normalization"): one income of
`+1000.0`, one expense of `-200.0`. -/
def c1txs : List Transaction :=
  [⟨1, "2025-01-01".data, 1000, "Salary".data, "income".data, "Pay".data⟩,
   ⟨2, "2025-01-02".data, -200, "Groceries".data, "expense".data, "Food".data⟩]

/-- Two expense records with equal amounts (a sort-key tie) and distinct
ids. -/
def c7a : Transaction := ⟨1, "2025-01-03".data, 50, "A".data, "expense".data, []⟩

/-- Second record of the tie pair. -/
def c7b : Transaction := ⟨2, "2025-01-04".data, 50, "B".data, "expense".data, []⟩

/-- A filesystem whose only file is the requested path, holding valid JSON
(`[{}]`) that does not conform to the record schema. -/
def c3fs : FileSys := fun p => if p = "data.json".data then .json (.jarr [.jobj []]) else .absent

/-- A filesystem on which every read raises `OSError`. -/
def c3fsOsErr : FileSys := fun _ => .osError

/-- The empty filesystem. -/
def c4fs : FileSys := fun _ => .absent

/-- A writability oracle accepting every path. -/
def allWritable : Str → Bool := fun _ => true

/-- An open oracle that never fails. -/
def neverFails : Str → Bool := fun _ => false

/-- A record whose type is neither `'income'` nor `'expense'`, with a
negative amount. -/
def c9neg : Transaction := ⟨3, "2025-01-05".data, -50, "X".data, "transfer".data, []⟩

/-- A record whose type is neither `'income'` nor `'expense'`, with a
non-negative amount. -/
def c9pos : Transaction := ⟨4, "2025-01-06".data, 70, "X".data, "transfer".data, []⟩

/-- A record whose date string does not parse as `YYYY-MM-DD`. -/
def c10bad : Transaction := ⟨5, "not-a-date".data, 1, "X".data, "expense".data, []⟩

/-! ## Order lemmas for the boolean comparisons used by the sorts -/

/-- Unfolding of `strLt` on two cons cells. -/
theorem strLt_cons_iff {x y : Char} {xs ys : Str} :
    strLt (x :: xs) (y :: ys) = true ↔ x < y ∨ (x = y ∧ strLt xs ys = true) := by
  simp only [strLt]
  split_ifs with h1 h2
  · simp [h1]
  · refine iff_of_false (by simp) ?_
    rintro (h | ⟨rfl, -⟩)
    · exact absurd h (lt_asymm h2)
    · exact lt_irrefl _ h2
  · have hxy : x = y := le_antisymm (not_lt.mp h2) (not_lt.mp h1)
    subst hxy
    simp [lt_irrefl]

/-- `strLt` is transitive. -/
theorem strLt_trans : ∀ (a b c : Str), strLt a b = true → strLt b c = true → strLt a c = true := by
  intro a
  induction a with
  | nil =>
    intro b c hab hbc
    cases b with
    | nil => simp [strLt] at hab
    | cons y ys =>
      cases c with
      | nil => simp [strLt] at hbc
      | cons z zs => simp [strLt]
  | cons x xs ih =>
    intro b c hab hbc
    cases b with
    | nil => simp [strLt] at hab
    | cons y ys =>
      cases c with
      | nil => simp [strLt] at hbc
      | cons z zs =>
        rw [strLt_cons_iff] at hab hbc ⊢
        rcases hab with h1 | ⟨rfl, h1⟩
        · rcases hbc with h2 | ⟨rfl, h2⟩
          · exact Or.inl (lt_trans h1 h2)
          · exact Or.inl h1
        · rcases hbc with h2 | ⟨rfl, h2⟩
          · exact Or.inl h2
          · exact Or.inr ⟨rfl, ih ys zs h1 h2⟩

/-- `strLt` is asymmetric. -/
theorem strLt_asymm : ∀ (a b : Str), strLt a b = true → strLt b a = true → False := by
  intro a
  induction a with
  | nil =>
    intro b hab hba
    cases b with
    | nil => simp [strLt] at hab
    | cons y ys => simp [strLt] at hba
  | cons x xs ih =>
    intro b hab hba
    cases b with
    | nil => simp [strLt] at hab
    | cons y ys =>
      rw [strLt_cons_iff] at hab hba
      rcases hab with h1 | ⟨rfl, h1⟩
      · rcases hba with h2 | ⟨rfl, h2⟩
        · exact absurd h2 (lt_asymm h1)
        · exact lt_irrefl _ h1
      · rcases hba with h2 | ⟨-, h2⟩
        · exact lt_irrefl _ h2
        · exact ih ys h1 h2

/-- Two strings neither of which is below the other are equal. -/
theorem strLt_conn : ∀ (a b : Str), strLt a b = false → strLt b a = false → a = b := by
  intro a
  induction a with
  | nil =>
    intro b hab _
    cases b with
    | nil => rfl
    | cons y ys => simp [strLt] at hab
  | cons x xs ih =>
    intro b hab hba
    cases b with
    | nil => simp [strLt] at hba
    | cons y ys =>
      rw [Bool.eq_false_iff, Ne, strLt_cons_iff] at hab hba
      push_neg at hab hba
      have hxy : x = y := le_antisymm hba.1 hab.1
      subst hxy
      have := ih ys (Bool.eq_false_iff.mpr (hab.2 rfl)) (Bool.eq_false_iff.mpr (hba.2 rfl))
      rw [this]

/-- A boolean relation that is transitive and total (the requirements of a
stable sort's comparison). -/
def BoolLe (le : α → α → Bool) : Prop :=
  (∀ a b c, le a b = true → le b c = true → le a c = true) ∧
    (∀ a b, le a b = true ∨ le b a = true)

/-- The complement-converse of an asymmetric, transitive, connected strict
comparison is transitive and total. -/
theorem boolLe_of_strict {lt : α → α → Bool}
    (htr : ∀ a b c, lt a b = true → lt b c = true → lt a c = true)
    (has : ∀ a b, lt a b = true → lt b a = true → False)
    (hco : ∀ a b, lt a b = false → lt b a = false → a = b) :
    BoolLe (fun a b => !lt b a) := by
  constructor
  · intro a b c hab hbc
    simp only [Bool.not_eq_true'] at hab hbc ⊢
    by_contra hca
    rw [Bool.not_eq_false] at hca
    cases h : lt b c with
    | false =>
      have hbceq : b = c := hco b c h hbc
      subst hbceq
      rw [hca] at hab
      exact Bool.true_eq_false.mp hab
    | true =>
      have : lt b a = true := htr b c a h hca
      rw [this] at hab
      exact Bool.true_eq_false.mp hab
  · intro a b
    by_contra h
    push_neg at h
    simp only [Bool.not_eq_true, Bool.not_eq_false'] at h
    exact has b a h.1 h.2

/-! ## Properties of the stable sort `pysort` -/

/-- Inserting an element permutes consing it. -/
theorem pysortInsert_perm (le : α → α → Bool) (x : α) :
    ∀ (l : List α), (pysortInsert le x l).Perm (x :: l) := by
  intro l
  induction l with
  | nil => simp [pysortInsert]
  | cons y ys ih =>
    simp only [pysortInsert]
    split_ifs
    · exact List.Perm.refl _
    · exact (ih.cons y).trans (List.Perm.swap x y ys)

/-- `pysort` permutes its input. -/
theorem pysort_perm (le : α → α → Bool) : ∀ (l : List α), (pysort le l).Perm l := by
  intro l
  induction l with
  | nil => simp [pysort]
  | cons x xs ih => exact (pysortInsert_perm le x (pysort le xs)).trans (ih.cons x)

/-- Inserting into a sorted list keeps it sorted, for a transitive and
total comparison. -/
theorem pysortInsert_pairwise {le : α → α → Bool} (hle : BoolLe le) (x : α) :
    ∀ {l : List α}, l.Pairwise (fun a b => le a b = true) →
      (pysortInsert le x l).Pairwise (fun a b => le a b = true) := by
  intro l
  induction l with
  | nil => simp [pysortInsert]
  | cons y ys ih =>
    intro h
    rw [List.pairwise_cons] at h
    simp only [pysortInsert]
    split_ifs with hxy
    · refine List.pairwise_cons.mpr ⟨?_, List.pairwise_cons.mpr h⟩
      intro z hz
      rcases List.mem_cons.mp hz with rfl | hz'
      · exact hxy
      · exact hle.1 x y z hxy (h.1 z hz')
    · have hyx : le y x = true := (hle.2 x y).resolve_left (by simpa using hxy)
      refine List.pairwise_cons.mpr ⟨?_, ih h.2⟩
      intro z hz
      have hmem := (pysortInsert_perm le x ys).mem_iff.mp hz
      rcases List.mem_cons.mp hmem with rfl | hz'
      · exact hyx
      · exact h.1 z hz'

/-- The result of `pysort` is sorted, for a transitive and total
comparison. -/
theorem pysort_pairwise {le : α → α → Bool} (hle : BoolLe le) :
    ∀ (l : List α), (pysort le l).Pairwise (fun a b => le a b = true) := by
  intro l
  induction l with
  | nil => simp [pysort]
  | cons x xs ih => exact pysortInsert_pairwise hle x ih

/-- Inserting an element that satisfies `p` and compares below every
`p`-element commutes with `filter p` by landing in front. -/
theorem pysortInsert_filter_pos {le : α → α → Bool} {p : α → Bool} {x : α}
    (hx : p x = true) (hall : ∀ z, p z = true → le x z = true) :
    ∀ (l : List α), (pysortInsert le x l).filter p = x :: l.filter p := by
  intro l
  induction l with
  | nil => simp [pysortInsert, hx]
  | cons y ys ih =>
    simp only [pysortInsert]
    split_ifs with hxy
    · simp [List.filter_cons, hx]
    · have hpy : p y = false := by
        cases hpy : p y with
        | false => rfl
        | true => exact absurd (hall y hpy) (by simpa using hxy)
      simp [List.filter_cons, hpy, ih]

/-- Inserting an element that fails `p` leaves `filter p` unchanged. -/
theorem pysortInsert_filter_neg {le : α → α → Bool} {p : α → Bool} {x : α}
    (hx : p x = false) :
    ∀ (l : List α), (pysortInsert le x l).filter p = l.filter p := by
  intro l
  induction l with
  | nil => simp [pysortInsert, hx]
  | cons y ys ih =>
    simp only [pysortInsert]
    split_ifs with hxy
    · simp [List.filter_cons, hx]
    · simp [List.filter_cons, ih]

/-- Stability of `pysort`: the restriction to any class of mutually
`le`-tied elements is returned in its original order. -/
theorem pysort_filter {le : α → α → Bool} {p : α → Bool}
    (hp : ∀ a b, p a = true → p b = true → le a b = true) :
    ∀ (l : List α), (pysort le l).filter p = l.filter p := by
  intro l
  induction l with
  | nil => simp [pysort]
  | cons x xs ih =>
    simp only [pysort]
    cases hx : p x with
    | true =>
      rw [pysortInsert_filter_pos hx (fun z hz => hp x z hx hz), ih, List.filter_cons, if_pos hx]
    | false =>
      rw [pysortInsert_filter_neg hx, ih, List.filter_cons, if_neg (by simp [hx])]

/-- Two sorted permutations of each other are equal, provided `le` is
antisymmetric on the elements involved. -/
theorem eq_of_perm_of_pairwiseB {le : α → α → Bool} :
    ∀ {l₁ l₂ : List α},
      (∀ a ∈ l₁, ∀ b ∈ l₁, le a b = true → le b a = true → a = b) →
      l₁.Perm l₂ →
      l₁.Pairwise (fun a b => le a b = true) →
      l₂.Pairwise (fun a b => le a b = true) → l₁ = l₂
  | [], l₂, _, hp, _, _ => hp.nil_eq
  | a :: t₁, [], _, hp, _, _ => absurd hp.symm.nil_eq (by simp)
  | a :: t₁, b :: t₂, anti, hp, s₁, s₂ => by
    rw [List.pairwise_cons] at s₁ s₂
    have hab : a = b := by
      by_cases h : a = b
      · exact h
      · have hb₁ : b ∈ a :: t₁ := hp.symm.subset (by simp)
        have ha₂ : a ∈ b :: t₂ := hp.subset (by simp)
        have hb₁' : b ∈ t₁ := by
          rcases List.mem_cons.mp hb₁ with heq | hmem
          · exact absurd heq.symm h
          · exact hmem
        have ha₂' : a ∈ t₂ := by
          rcases List.mem_cons.mp ha₂ with heq | hmem
          · exact absurd heq h
          · exact hmem
        exact anti a (by simp) b (by simp [hb₁']) (s₁.1 b hb₁') (s₂.1 a ha₂')
    subst hab
    have ht : t₁.Perm t₂ := hp.cons_inv
    have anti' : ∀ x ∈ t₁, ∀ y ∈ t₁, le x y = true → le y x = true → x = y := by
      intro x hx y hy
      exact anti x (by simp [hx]) y (by simp [hy])
    rw [eq_of_perm_of_pairwiseB anti' ht s₁.2 s₂.2]

/-- `sorted(l, reverse=rev)` permutes its input for either direction. -/
theorem pysorted_perm (le : α → α → Bool) (rev : Bool) (l : List α) :
    (pysorted le rev l).Perm l := by
  cases rev with
  | false => exact pysort_perm le l
  | true =>
    simp only [pysorted, if_pos rfl]
    exact ((pysort le l.reverse).reverse_perm.trans (pysort_perm le l.reverse)).trans
      l.reverse_perm

/-- Unfolding of the tuple comparison. -/
theorem pairLt_iff {p q : Str × ℚ} :
    pairLt p q = true ↔ strLt p.1 q.1 = true ∨ (p.1 = q.1 ∧ p.2 < q.2) := by
  simp [pairLt]

/-- Tuple `<` is transitive. -/
theorem pairLt_trans : ∀ (p q r : Str × ℚ),
    pairLt p q = true → pairLt q r = true → pairLt p r = true := by
  intro p q r hpq hqr
  rw [pairLt_iff] at hpq hqr ⊢
  rcases hpq with h1 | ⟨he1, h1⟩
  · rcases hqr with h2 | ⟨he2, h2⟩
    · exact Or.inl (strLt_trans _ _ _ h1 h2)
    · exact Or.inl (he2 ▸ h1)
  · rcases hqr with h2 | ⟨he2, h2⟩
    · exact Or.inl (he1 ▸ h2)
    · exact Or.inr ⟨he1.trans he2, h1.trans h2⟩

/-- Tuple `<` is asymmetric. -/
theorem pairLt_asymm : ∀ (p q : Str × ℚ),
    pairLt p q = true → pairLt q p = true → False := by
  intro p q hpq hqp
  rw [pairLt_iff] at hpq hqp
  rcases hpq with h1 | ⟨he1, h1⟩
  · rcases hqp with h2 | ⟨he2, h2⟩
    · exact strLt_asymm _ _ h1 h2
    · exact strLt_asymm _ _ h1 (he2 ▸ h1)
  · rcases hqp with h2 | ⟨he2, h2⟩
    · exact strLt_asymm _ _ h2 (he1 ▸ h2)
    · exact absurd h2 (lt_asymm h1)

/-- Tuples neither of which is below the other are equal. -/
theorem pairLt_conn : ∀ (p q : Str × ℚ),
    pairLt p q = false → pairLt q p = false → p = q := by
  intro p q hpq hqp
  rw [Bool.eq_false_iff, Ne, pairLt_iff] at hpq hqp
  push_neg at hpq hqp
  have hkey : p.1 = q.1 := strLt_conn _ _ (Bool.eq_false_iff.mpr hpq.1) (Bool.eq_false_iff.mpr hqp.1)
  have hval : p.2 = q.2 := le_antisymm (hqp.2 hkey.symm) (hpq.2 hkey)
  exact Prod.ext hkey hval

/-- Tuple `<=` is transitive and total. -/
theorem pairLe_boolLe : BoolLe pairLe :=
  boolLe_of_strict pairLt_trans pairLt_asymm pairLt_conn

/-- Pulling a transitive total comparison back along a key function. -/
theorem boolLe_comap {le : β → β → Bool} (f : α → β) (h : BoolLe le) :
    BoolLe (fun a b => le (f a) (f b)) :=
  ⟨fun a b c hab hbc => h.1 (f a) (f b) (f c) hab hbc, fun a b => h.2 (f a) (f b)⟩

/-- String `<=` is transitive and total. -/
theorem strLe_boolLe : BoolLe strLe :=
  boolLe_of_strict strLt_trans strLt_asymm strLt_conn

/-- Date `<` is transitive. -/
theorem dateLt_trans : ∀ (a b c : PyDate),
    dateLt a b = true → dateLt b c = true → dateLt a c = true := by
  intro a b c hab hbc
  simp only [dateLt, decide_eq_true_eq] at hab hbc ⊢
  omega

/-- Date `<` is asymmetric. -/
theorem dateLt_asymm : ∀ (a b : PyDate), dateLt a b = true → dateLt b a = true → False := by
  intro a b hab hba
  simp only [dateLt, decide_eq_true_eq] at hab hba
  omega

/-- Dates neither of which is below the other are equal. -/
theorem dateLt_conn : ∀ (a b : PyDate), dateLt a b = false → dateLt b a = false → a = b := by
  intro a b hab hba
  simp only [dateLt, decide_eq_false_iff_not] at hab hba
  push_neg at hab hba
  obtain ⟨ay, am, ad⟩ := a
  obtain ⟨by', bm, bd⟩ := b
  simp only at hab hba ⊢
  congr 1 <;> omega

/-- Every key comparison selected by `list_transactions` is transitive and
total. -/
theorem keyLe_boolLe (sort_key : Option Str) : BoolLe (keyLe sort_key) := by
  unfold keyLe
  split_ifs
  · exact boolLe_comap (fun (t : Transaction) => (parse_date t.date).getD ⟨0, 0, 0⟩)
      (boolLe_of_strict dateLt_trans dateLt_asymm dateLt_conn)
  · constructor
    · intro a b c hab hbc
      simp only [decide_eq_true_eq] at hab hbc ⊢
      exact le_trans hab hbc
    · intro a b
      simp only [decide_eq_true_eq]
      exact le_total a.amount b.amount
  · exact boolLe_comap (fun (t : Transaction) => strLower t.category) strLe_boolLe
  · constructor
    · intro a b c hab hbc
      simp only [decide_eq_true_eq] at hab hbc ⊢
      exact le_trans hab hbc
    · intro a b
      simp only [decide_eq_true_eq]
      exact le_total a.id b.id

/-! ## Balance summary -/

/-- The conditional second accumulation in `balance_summary` collapses:
the returned triple is always
`(income, pos + neg + other, income - (pos + neg + other))`. -/
theorem balance_summary_eq (l : List Transaction) :
    balance_summary l = (incomeSum l, expPosSum l + expNegSum l + otherNegSum l,
      incomeSum l - (expPosSum l + expNegSum l + otherNegSum l)) := by
  simp only [balance_summary, incomeSum, expPosSum, expNegSum, otherNegSum]
  split_ifs with h
  · rfl
  · rw [not_not] at h
    rw [h, add_zero]

/-- Non-income records do not change the income sum. -/
theorem incomeSum_middle (l₁ l₂ : List Transaction) (t : Transaction)
    (h : t.ttype ≠ "income".data) :
    incomeSum (l₁ ++ t :: l₂) = incomeSum (l₁ ++ l₂) := by
  unfold incomeSum
  simp [List.filter_append, List.filter_cons, h]

/-- Non-expense records do not change the non-negative expense sum. -/
theorem expPosSum_middle (l₁ l₂ : List Transaction) (t : Transaction)
    (h : t.ttype ≠ "expense".data) :
    expPosSum (l₁ ++ t :: l₂) = expPosSum (l₁ ++ l₂) := by
  unfold expPosSum
  simp [List.filter_append, List.filter_cons, h]

/-- Non-expense records do not change the negative expense sum. -/
theorem expNegSum_middle (l₁ l₂ : List Transaction) (t : Transaction)
    (h : t.ttype ≠ "expense".data) :
    expNegSum (l₁ ++ t :: l₂) = expNegSum (l₁ ++ l₂) := by
  unfold expNegSum
  simp [List.filter_append, List.filter_cons, h]

/-- A negative-amount non-income record adds its magnitude once to the
second-pass sum. -/
theorem otherNegSum_middle_neg (l₁ l₂ : List Transaction) (t : Transaction)
    (h1 : t.ttype ≠ "income".data) (h2 : t.amount < 0) :
    otherNegSum (l₁ ++ t :: l₂) = otherNegSum (l₁ ++ l₂) + -t.amount := by
  unfold otherNegSum
  simp [List.filter_append, List.filter_cons, h1, h2, List.map_append, List.sum_append]
  ring

/-- A non-negative-amount record does not change the second-pass sum. -/
theorem otherNegSum_middle_nonneg (l₁ l₂ : List Transaction) (t : Transaction)
    (h2 : 0 ≤ t.amount) :
    otherNegSum (l₁ ++ t :: l₂) = otherNegSum (l₁ ++ l₂) := by
  unfold otherNegSum
  simp [List.filter_append, List.filter_cons, not_lt.mpr h2]

/-- C1: on the two-record collection of the program's own self test
(income `+1000.0`, expense `-200.0`), `balance_summary` actually returns
`income = 1000.0`, `expenses = 400.0`, `savings = 600.0`: the negative
expense's magnitude is counted twice, contradicting both the claimed
`(1000.0, 200.0, 800.0)` and the assertion in `run_self_tests`. -/
theorem c1_balance_summary_on_selftest_pair : balance_summary c1txs = (1000, 400, 600) := by
  rw [balance_summary_eq]
  norm_num [incomeSum, expPosSum, expNegSum, otherNegSum, c1txs, List.filter_cons,
    List.filter_nil]

/-- C2: on a collection whose records are all typed `'income'` or
`'expense'`, `balance_summary` returns the raw income sum, expenses equal
to the non-negative expense sum plus twice the negative expense
magnitude sum, and savings equal to income minus those expenses. -/
theorem c2_balance_summary_double_count (txs : List Transaction)
    (h : ∀ t ∈ txs, t.ttype = "income".data ∨ t.ttype = "expense".data) :
    balance_summary txs =
      (incomeSum txs, expPosSum txs + 2 * expNegSum txs,
        incomeSum txs - (expPosSum txs + 2 * expNegSum txs)) := by
  have hne : ("income".data : Str) ≠ "expense".data := by decide
  have hne' : ("expense".data : Str) ≠ "income".data := by decide
  have key : otherNegSum txs = expNegSum txs := by
    unfold otherNegSum expNegSum
    have : (txs.filter fun t => t.ttype ≠ "income".data ∧ t.amount < 0) =
        (txs.filter fun t => t.ttype = "expense".data ∧ t.amount < 0) := by
      apply List.filter_congr
      intro t ht
      rcases h t ht with he | he <;> simp [he, hne, hne']
    rw [this]
  rw [balance_summary_eq, key]
  simp only [Prod.mk.injEq]
  refine ⟨trivial, by ring, by ring⟩

/-- C2 witness: the theorem applied to the self-test pair. -/
theorem c2_balance_summary_double_count_witness :
    balance_summary c1txs =
      (incomeSum c1txs, expPosSum c1txs + 2 * expNegSum c1txs,
        incomeSum c1txs - (expPosSum c1txs + 2 * expNegSum c1txs)) :=
  c2_balance_summary_double_count c1txs (by decide)

/-- C9: a record whose type is neither `'income'` nor `'expense'`
contributes to `balance_summary` only through the expenses component
(and thereby savings): when its amount is negative its magnitude is added
to expenses exactly once, and when its amount is non-negative the whole
summary is unchanged. -/
theorem c9_other_type_contribution (l₁ l₂ : List Transaction) (t : Transaction)
    (h1 : t.ttype ≠ "income".data) (h2 : t.ttype ≠ "expense".data) :
    (t.amount < 0 →
      balance_summary (l₁ ++ t :: l₂) =
        ((balance_summary (l₁ ++ l₂)).1,
          (balance_summary (l₁ ++ l₂)).2.1 + -t.amount,
          (balance_summary (l₁ ++ l₂)).1 - ((balance_summary (l₁ ++ l₂)).2.1 + -t.amount)))
    ∧ (0 ≤ t.amount → balance_summary (l₁ ++ t :: l₂) = balance_summary (l₁ ++ l₂)) := by
  constructor
  · intro hneg
    rw [balance_summary_eq (l₁ ++ t :: l₂), balance_summary_eq (l₁ ++ l₂),
      incomeSum_middle _ _ _ h1, expPosSum_middle _ _ _ h2, expNegSum_middle _ _ _ h2,
      otherNegSum_middle_neg _ _ _ h1 hneg]
    simp only [Prod.mk.injEq]
    refine ⟨trivial, by ring, by ring⟩
  · intro hpos
    rw [balance_summary_eq (l₁ ++ t :: l₂), balance_summary_eq (l₁ ++ l₂),
      incomeSum_middle _ _ _ h1, expPosSum_middle _ _ _ h2, expNegSum_middle _ _ _ h2,
      otherNegSum_middle_nonneg _ _ _ hpos]

/-- C9 witness: the theorem applied to a negative and a non-negative
`'transfer'` record inserted into the self-test pair. -/
theorem c9_other_type_contribution_witness :
    (balance_summary (c1txs ++ c9neg :: []) =
      ((balance_summary (c1txs ++ [])).1,
        (balance_summary (c1txs ++ [])).2.1 + -c9neg.amount,
        (balance_summary (c1txs ++ [])).1 -
          ((balance_summary (c1txs ++ [])).2.1 + -c9neg.amount)))
    ∧ balance_summary (c1txs ++ c9pos :: []) = balance_summary (c1txs ++ []) :=
  ⟨(c9_other_type_contribution c1txs [] c9neg (by decide) (by decide)).1 (by decide),
    (c9_other_type_contribution c1txs [] c9pos (by decide) (by decide)).2 (by decide)⟩

/-- C5: `filter_expenses_over` returns exactly the records typed
`'expense'` whose absolute amount strictly exceeds the threshold, as a
subsequence of the input; records at the boundary or of other types are
excluded. -/
theorem c5_filter_expenses_over_exact (txs : List Transaction) (th : ℚ) :
    (filter_expenses_over txs th).Sublist txs ∧
      ∀ t, t ∈ filter_expenses_over txs th ↔
        t ∈ txs ∧ t.ttype = "expense".data ∧ th < pyAbs t.amount := by
  refine ⟨List.filter_sublist txs, ?_⟩
  intro t
  simp [filter_expenses_over, List.mem_filter, and_assoc]

/-- C5 witness: the characterization applied to the self-test pair and
threshold `100`, instantiated at its expense record. -/
theorem c5_filter_expenses_over_exact_witness :
    (filter_expenses_over c1txs 100).Sublist c1txs ∧
      ((⟨2, "2025-01-02".data, -200, "Groceries".data, "expense".data, "Food".data⟩ :
          Transaction) ∈ filter_expenses_over c1txs 100 ↔
        (⟨2, "2025-01-02".data, -200, "Groceries".data, "expense".data, "Food".data⟩ :
          Transaction) ∈ c1txs ∧
          (⟨2, "2025-01-02".data, -200, "Groceries".data, "expense".data, "Food".data⟩ :
            Transaction).ttype = "expense".data ∧
          (100 : ℚ) < pyAbs (⟨2, "2025-01-02".data, -200, "Groceries".data, "expense".data,
            "Food".data⟩ : Transaction).amount) :=
  ⟨(c5_filter_expenses_over_exact c1txs 100).1,
    (c5_filter_expenses_over_exact c1txs 100).2 _⟩

/-- C10: with both bounds absent, `filter_by_date_range` still parses the
records' dates: it raises `ValueError` as soon as some record's date is
invalid, and returns all records in their original order when every date
is valid. -/
theorem c10_date_range_parses_every_record (txs : List Transaction) :
    ((∃ t ∈ txs, parse_date t.date = none) →
      filter_by_date_range txs none none = .error .valueError)
    ∧ ((∀ t ∈ txs, parse_date t.date ≠ none) →
      filter_by_date_range txs none none = .ok txs) := by
  induction txs with
  | nil => exact ⟨by simp, by simp [filter_by_date_range]⟩
  | cons t rest ih =>
    constructor
    · rintro ⟨u, hu, hpu⟩
      rcases List.mem_cons.mp hu with rfl | hu'
      · simp [filter_by_date_range, hpu]
      · cases hpt : parse_date t.date with
        | none => simp [filter_by_date_range, hpt]
        | some dt =>
          have hrest := ih.1 ⟨u, hu', hpu⟩
          simp [filter_by_date_range, hpt, boundSkips, truthyOptStr, hrest]
    · intro hall
      cases hpt : parse_date t.date with
      | none => exact absurd hpt (hall t (by simp))
      | some dt =>
        have hrest := ih.2 (fun u hu => hall u (by simp [hu]))
        simp [filter_by_date_range, hpt, boundSkips, truthyOptStr, hrest]

/-- C10 witness: a one-record collection with an unparsable date faults,
and the self-test pair with valid dates is returned unchanged. -/
theorem c10_date_range_parses_every_record_witness :
    filter_by_date_range [c10bad] none none = .error .valueError
    ∧ filter_by_date_range c1txs none none = .ok c1txs :=
  ⟨(c10_date_range_parses_every_record [c10bad]).1 (by decide),
    (c10_date_range_parses_every_record c1txs).2 (by decide)⟩

/-! ## Monthly spending -/

/-- `d.get(k, dflt)` agrees with the optional lookup. -/
theorem dictGetD_eq_getD (d : List (Str × ℚ)) (k : Str) (dflt : ℚ) :
    dictGetD d k dflt = (dictGet? d k).getD dflt := by
  induction d with
  | nil => rfl
  | cons kv rest ih =>
    obtain ⟨k', v'⟩ := kv
    simp only [dictGetD, dictGet?]
    split_ifs <;> simp [ih]

/-- Lookup after assignment. -/
theorem dictGet?_dictSet (d : List (Str × ℚ)) (k : Str) (v : ℚ) (k' : Str) :
    dictGet? (dictSet d k v) k' = if k = k' then some v else dictGet? d k' := by
  induction d with
  | nil => simp [dictSet, dictGet?]
  | cons kv rest ih =>
    obtain ⟨k₀, v₀⟩ := kv
    by_cases h₀ : k₀ = k
    · subst h₀
      by_cases h₁ : k₀ = k'
      · subst h₁
        simp [dictSet, dictGet?]
      · simp [dictSet, dictGet?, h₁]
    · have hks : k ≠ k₀ := fun h => h₀ h.symm
      by_cases h₁ : k₀ = k'
      · subst h₁
        simp [dictSet, dictGet?, h₀, hks]
      · simp [dictSet, dictGet?, h₀, h₁, ih]

/-- Keys after assignment: an existing key leaves the key list unchanged,
a fresh key is appended. -/
theorem dictSet_keys (d : List (Str × ℚ)) (k : Str) (v : ℚ) :
    (dictSet d k v).map Prod.fst =
      if k ∈ d.map Prod.fst then d.map Prod.fst else d.map Prod.fst ++ [k] := by
  induction d with
  | nil => simp [dictSet]
  | cons kv rest ih =>
    obtain ⟨k₀, v₀⟩ := kv
    by_cases h₀ : k₀ = k
    · subst h₀
      simp [dictSet]
    · have hks : k ≠ k₀ := fun h => h₀ h.symm
      by_cases hm : k ∈ rest.map Prod.fst
      · simp [dictSet, h₀, ih, hm, List.mem_cons]
      · simp [dictSet, h₀, ih, hm, List.mem_cons, hks]

/-- Assignment preserves distinctness of the keys. -/
theorem dictSet_keys_nodup {d : List (Str × ℚ)} (hn : (d.map Prod.fst).Nodup)
    (k : Str) (v : ℚ) : ((dictSet d k v).map Prod.fst).Nodup := by
  rw [dictSet_keys]
  split_ifs with h
  · exact hn
  · simp [List.nodup_append, hn, h]

/-- The totals built by `monthly_spending`'s loop have distinct keys. -/
theorem monthFold_keys_nodup :
    ∀ (txs : List Transaction) (acc : List (Str × ℚ)),
      (acc.map Prod.fst).Nodup → ((txs.foldl monthStep acc).map Prod.fst).Nodup := by
  intro txs
  induction txs with
  | nil => exact fun acc h => h
  | cons t rest ih =>
    intro acc h
    rw [List.foldl_cons]
    apply ih
    unfold monthStep
    split_ifs with ht
    · exact h
    · exact dictSet_keys_nodup h _ _

/-- With distinct keys, a successful lookup is exactly membership of the
pair. -/
theorem dictGet?_eq_some_iff {d : List (Str × ℚ)} (hn : (d.map Prod.fst).Nodup)
    (m : Str) (v : ℚ) : dictGet? d m = some v ↔ (m, v) ∈ d := by
  induction d with
  | nil => simp [dictGet?]
  | cons kv rest ih =>
    obtain ⟨k', v'⟩ := kv
    rw [List.map_cons, List.nodup_cons] at hn
    simp only [dictGet?, List.mem_cons]
    split_ifs with h
    · subst h
      constructor
      · intro hh
        exact Or.inl (Prod.ext rfl (Option.some.inj hh).symm)
      · rintro (hh | hh)
        · rw [Prod.mk.injEq] at hh
          rw [hh.2]
        · exact absurd (List.mem_map_of_mem Prod.fst hh) (by simpa using hn.1)
    · rw [ih hn.2]
      constructor
      · exact Or.inr
      · rintro (hh | hh)
        · rw [Prod.mk.injEq] at hh
          exact absurd hh.1.symm h
        · exact hh

/-- A failing lookup is exactly absence of the key. -/
theorem dictGet?_eq_none_iff (d : List (Str × ℚ)) (m : Str) :
    dictGet? d m = none ↔ m ∉ d.map Prod.fst := by
  induction d with
  | nil => simp [dictGet?]
  | cons kv rest ih =>
    obtain ⟨k', v'⟩ := kv
    simp only [dictGet?, List.map_cons, List.mem_cons]
    split_ifs with h
    · subst h
      simp
    · simp [ih, Ne.symm h]

/-- Permuting an association list with distinct keys does not change
lookups. -/
theorem dictGet?_perm {d₁ d₂ : List (Str × ℚ)} (hp : d₁.Perm d₂)
    (hn : (d₁.map Prod.fst).Nodup) (m : Str) : dictGet? d₁ m = dictGet? d₂ m := by
  have hn₂ : (d₂.map Prod.fst).Nodup := ((hp.map Prod.fst).nodup_iff).mp hn
  cases h₁ : dictGet? d₁ m with
  | none =>
    rw [dictGet?_eq_none_iff] at h₁
    have : m ∉ d₂.map Prod.fst := fun hmem =>
      h₁ ((hp.map Prod.fst).mem_iff.mpr hmem)
    exact ((dictGet?_eq_none_iff d₂ m).mpr this).symm
  | some v =>
    rw [dictGet?_eq_some_iff hn] at h₁
    exact ((dictGet?_eq_some_iff hn₂ m v).mpr (hp.mem_iff.mp h₁)).symm

/-- An empty month filter means a zero month total. -/
theorem monthSum_eq_zero {txs : List Transaction} {m : Str}
    (h : (txs.filter fun t => t.ttype = "expense".data ∧ t.date.take 7 = m) = []) :
    monthSum txs m = 0 := by
  unfold monthSum
  rw [h]
  rfl

/-- Characterization of the totals accumulated by `monthly_spending`'s
loop, relative to an arbitrary starting dict. -/
theorem monthFold_lookup :
    ∀ (txs : List Transaction) (acc : List (Str × ℚ)) (m : Str),
      dictGet? (txs.foldl monthStep acc) m =
        if (txs.filter fun t => t.ttype = "expense".data ∧ t.date.take 7 = m) = [] then
          dictGet? acc m
        else some ((dictGet? acc m).getD 0 + monthSum txs m) := by
  intro txs
  induction txs with
  | nil => intro acc m; simp
  | cons t rest ih =>
    intro acc m
    rw [List.foldl_cons]
    by_cases ht : t.ttype = "expense".data
    · by_cases hm : t.date.take 7 = m
      · have hstep : monthStep acc t =
            dictSet acc m (dictGetD acc m 0 + pyAbs t.amount) := by
          simp [monthStep, ht, hm]
        have hfilter : ((t :: rest).filter fun u =>
            u.ttype = "expense".data ∧ u.date.take 7 = m) =
            t :: (rest.filter fun u => u.ttype = "expense".data ∧ u.date.take 7 = m) := by
          simp [List.filter_cons, ht, hm]
        have hms : monthSum (t :: rest) m = pyAbs t.amount + monthSum rest m := by
          unfold monthSum
          rw [hfilter, List.map_cons, List.sum_cons]
        have hget : dictGet? (monthStep acc t) m =
            some ((dictGet? acc m).getD 0 + pyAbs t.amount) := by
          rw [hstep, dictGet?_dictSet, if_pos rfl, dictGetD_eq_getD]
        rw [ih (monthStep acc t) m, hfilter, hms, hget]
        by_cases hrf : (rest.filter fun u =>
            u.ttype = "expense".data ∧ u.date.take 7 = m) = []
        · rw [if_pos hrf, if_neg (List.cons_ne_nil _ _), monthSum_eq_zero hrf]
          rw [add_zero]
        · rw [if_neg hrf, if_neg (List.cons_ne_nil _ _)]
          simp only [Option.getD_some]
          rw [add_assoc]
      · have hstep : dictGet? (monthStep acc t) m = dictGet? acc m := by
          simp only [monthStep, ht, ne_eq, not_true_eq_false, if_false]
          rw [dictGet?_dictSet, if_neg hm]
        have hfilter : ((t :: rest).filter fun u =>
            u.ttype = "expense".data ∧ u.date.take 7 = m) =
            rest.filter fun u => u.ttype = "expense".data ∧ u.date.take 7 = m := by
          simp [List.filter_cons, hm]
        have hms : monthSum (t :: rest) m = monthSum rest m := by
          unfold monthSum
          rw [hfilter]
        rw [ih (monthStep acc t) m, hfilter, hms, hstep]
    · have hstep : monthStep acc t = acc := by simp [monthStep, ht]
      have hfilter : ((t :: rest).filter fun u =>
          u.ttype = "expense".data ∧ u.date.take 7 = m) =
          rest.filter fun u => u.ttype = "expense".data ∧ u.date.take 7 = m := by
        simp [List.filter_cons, ht]
      have hms : monthSum (t :: rest) m = monthSum rest m := by
        unfold monthSum
        rw [hfilter]
      rw [hstep, ih acc m, hfilter, hms]

/-- C6: `monthly_spending` maps a month key to a value exactly when some
expense record has that month (the first seven characters of its date),
the value being the sum of `abs(amount)` over those records — income
records, negative or not, are excluded — and the returned mapping is in
strictly ascending month-key order. -/
theorem c6_monthly_spending_spec (txs : List Transaction) :
    (∀ m v,
      dictGet? (monthly_spending txs) m = some v ↔
        (txs.filter fun t => t.ttype = "expense".data ∧ t.date.take 7 = m) ≠ [] ∧
          v = monthSum txs m)
    ∧ (monthly_spending txs).Pairwise (fun p q => strLt p.1 q.1 = true) := by
  have hn : ((txs.foldl monthStep []).map Prod.fst).Nodup :=
    monthFold_keys_nodup txs [] (by simp)
  have hperm : (pysort pairLe (txs.foldl monthStep [])).Perm (txs.foldl monthStep []) :=
    pysort_perm _ _
  have hnsorted : ((pysort pairLe (txs.foldl monthStep [])).map Prod.fst).Nodup :=
    ((hperm.map Prod.fst).nodup_iff).mpr hn
  constructor
  · intro m v
    have h1 : dictGet? (monthly_spending txs) m = dictGet? (txs.foldl monthStep []) m := by
      unfold monthly_spending
      exact dictGet?_perm hperm hnsorted m
    rw [h1, monthFold_lookup txs [] m]
    split_ifs with hf
    · exact iff_of_false (by simp [dictGet?]) (fun hcon => hcon.1 hf)
    · simp only [dictGet?, Option.getD_none, zero_add, hf, ne_eq, not_false_iff, true_and,
        Option.some.injEq]
      exact eq_comm
  · unfold monthly_spending
    have hs := pysort_pairwise pairLe_boolLe (txs.foldl monthStep [])
    have hne : (pysort pairLe (txs.foldl monthStep [])).Pairwise
        (fun p q => p.1 ≠ q.1) := List.pairwise_map.mp hnsorted
    refine (hs.and hne).imp ?_
    rintro p q ⟨hle, hneq⟩
    have hqp : pairLt q p = false := by
      have := hle
      simp only [pairLe, Bool.not_eq_true'] at this
      exact this
    cases hpq : strLt p.1 q.1 with
    | true => rfl
    | false =>
      have hq : strLt q.1 p.1 = false := by
        cases hq : strLt q.1 p.1 with
        | false => rfl
        | true =>
          have : pairLt q p = true := pairLt_iff.mpr (Or.inl hq)
          rw [this] at hqp
          exact absurd hqp (by simp)
      exact absurd (strLt_conn _ _ hpq hq) hneq

/-- C6 witness: the characterization instantiated on the self-test pair
at its expense month. -/
theorem c6_monthly_spending_spec_witness :
    (dictGet? (monthly_spending c1txs) "2025-01".data = some (monthSum c1txs "2025-01".data) ↔
      (c1txs.filter fun t => t.ttype = "expense".data ∧ t.date.take 7 = "2025-01".data) ≠ [] ∧
        monthSum c1txs "2025-01".data = monthSum c1txs "2025-01".data)
    ∧ (monthly_spending c1txs).Pairwise (fun p q => strLt p.1 q.1 = true) :=
  ⟨(c6_monthly_spending_spec c1txs).1 "2025-01".data (monthSum c1txs "2025-01".data),
    (c6_monthly_spending_spec c1txs).2⟩

/-! ## Listing and sorting -/

/-- A successful `list_transactions` call returns the stable sort under
the selected key. -/
theorem list_transactions_ok {txs : List Transaction} {k : Option Str} {rev : Bool}
    {out : List Transaction} (h : list_transactions txs k rev = .ok out) :
    out = pysorted (keyLe k) rev txs := by
  by_cases hc : k = some "date".data ∧ ∃ t ∈ txs, parse_date t.date = none
  · rw [list_transactions, if_pos hc] at h
    exact absurd h (by simp)
  · rw [list_transactions, if_neg hc] at h
    exact (Except.ok.inj h).symm

/-- The default key comparison is the id comparison. -/
theorem keyLe_none : keyLe none = fun a b => decide (a.id ≤ b.id) := by
  unfold keyLe
  simp

/-- C7 (amended): with no sort key (and `reverse=False`) the result is a
permutation of the input sorted by ascending id; for every key and either
direction the sort is stable — records with equal keys keep their original
relative order, even under `reverse=True`; consequently `reverse=True`
coincides with the reversal of the `reverse=False` ordering exactly when
no two records tie on the key (it is a stable descending order in
general, not a reversal). -/
theorem c7_list_transactions_order :
    (∀ (txs out : List Transaction),
        list_transactions txs none false = .ok out →
          out.Perm txs ∧ out.Pairwise (fun a b => a.id ≤ b.id))
    ∧ (∀ (txs : List Transaction) (k : Option Str) (rev : Bool) (t : Transaction)
        (out : List Transaction), list_transactions txs k rev = .ok out →
          out.filter (fun u => keyLe k t u && keyLe k u t) =
            txs.filter (fun u => keyLe k t u && keyLe k u t))
    ∧ (∀ (txs : List Transaction) (k : Option Str) (out₁ out₂ : List Transaction),
        (∀ a ∈ txs, ∀ b ∈ txs, keyLe k a b = true → keyLe k b a = true → a = b) →
        list_transactions txs k false = .ok out₁ →
        list_transactions txs k true = .ok out₂ → out₂ = out₁.reverse) := by
  refine ⟨?_, ?_, ?_⟩
  · intro txs out hok
    rw [list_transactions_ok hok]
    refine ⟨pysorted_perm _ _ _, ?_⟩
    have hP := pysort_pairwise (keyLe_boolLe none) txs
    rw [keyLe_none] at hP
    have : pysorted (keyLe none) false txs = pysort (keyLe none) txs := by
      simp [pysorted]
    rw [this, keyLe_none]
    exact hP.imp (fun h => of_decide_eq_true h)
  · intro txs k rev t out hok
    rw [list_transactions_ok hok]
    have hp : ∀ a b, (keyLe k t a && keyLe k a t) = true →
        (keyLe k t b && keyLe k b t) = true → keyLe k a b = true := by
      intro a b ha hb
      rw [Bool.and_eq_true] at ha hb
      exact (keyLe_boolLe k).1 a t b ha.2 hb.1
    cases rev with
    | false =>
      have : pysorted (keyLe k) false txs = pysort (keyLe k) txs := by simp [pysorted]
      rw [this]
      exact pysort_filter hp txs
    | true =>
      have : pysorted (keyLe k) true txs = (pysort (keyLe k) txs.reverse).reverse := by
        simp [pysorted]
      rw [this, List.filter_reverse, pysort_filter hp, List.filter_reverse,
        List.reverse_reverse]
  · intro txs k out₁ out₂ anti h1 h2
    rw [list_transactions_ok h1, list_transactions_ok h2]
    have hpermr : (pysort (keyLe k) txs.reverse).Perm txs :=
      (pysort_perm _ _).trans txs.reverse_perm
    have heq : pysort (keyLe k) txs.reverse = pysort (keyLe k) txs := by
      refine eq_of_perm_of_pairwiseB ?_ (hpermr.trans (pysort_perm _ txs).symm)
        (pysort_pairwise (keyLe_boolLe k) _) (pysort_pairwise (keyLe_boolLe k) _)
      intro a ha b hb
      exact anti a (hpermr.subset ha) b (hpermr.subset hb)
    have h2' : pysorted (keyLe k) true txs = (pysort (keyLe k) txs.reverse).reverse := by
      simp [pysorted]
    have h1' : pysorted (keyLe k) false txs = pysort (keyLe k) txs := by
      simp [pysorted]
    rw [h1', h2', heq]

/-- C7 counterexample: on two records tying on the `'amount'` key,
`reverse=True` preserves their original order (stability), so it is not
the reversal of the `reverse=False` ordering. -/
theorem c7_reverse_is_not_reversal :
    list_transactions [c7a, c7b] (some "amount".data) false = .ok [c7a, c7b]
    ∧ list_transactions [c7a, c7b] (some "amount".data) true = .ok [c7a, c7b]
    ∧ [c7a, c7b] ≠ List.reverse [c7a, c7b] :=
  ⟨by rfl, by rfl, by decide⟩

/-- C7 witness: the amended theorem instantiated on concrete inputs — the
id sort of a two-record list, stability of the tied `'amount'` sort under
`reverse=True`, and the reversal equality for the tie-free default key. -/
theorem c7_list_transactions_order_witness :
    (([c7a, c7b] : List Transaction).Perm [c7b, c7a]
      ∧ ([c7a, c7b] : List Transaction).Pairwise (fun a b => a.id ≤ b.id))
    ∧ ([c7a, c7b].filter
          (fun u => keyLe (some "amount".data) c7a u && keyLe (some "amount".data) u c7a) =
        [c7a, c7b].filter
          (fun u => keyLe (some "amount".data) c7a u && keyLe (some "amount".data) u c7a))
    ∧ ([c7b, c7a] : List Transaction) = List.reverse [c7a, c7b] :=
  ⟨c7_list_transactions_order.1 [c7b, c7a] [c7a, c7b] (by rfl),
    c7_list_transactions_order.2.1 [c7a, c7b] (some "amount".data) true c7a [c7a, c7b]
      (by rfl),
    c7_list_transactions_order.2.2 [c7b, c7a] none [c7a, c7b] [c7b, c7a] (by decide)
      (by rfl) (by rfl)⟩

/-- C8: listing never mutates the caller's collection — the collection
after the call is the input itself, and a successful result is a fresh
permutation of it. -/
theorem c8_list_transactions_leaves_input (txs : List Transaction) (k : Option Str)
    (rev : Bool) :
    (list_transactions_call txs k rev).1 = txs
    ∧ ∀ out, (list_transactions_call txs k rev).2 = .ok out → out.Perm txs := by
  refine ⟨rfl, ?_⟩
  intro out hok
  rw [list_transactions_ok (show list_transactions txs k rev = .ok out from hok)]
  exact pysorted_perm _ _ _

/-- C8 witness: the theorem applied to a concrete call. -/
theorem c8_list_transactions_leaves_input_witness :
    (list_transactions_call [c7a, c7b] none false).1 = [c7a, c7b]
    ∧ ([c7a, c7b] : List Transaction).Perm [c7a, c7b] :=
  ⟨(c8_list_transactions_leaves_input [c7a, c7b] none false).1,
    (c8_list_transactions_leaves_input [c7a, c7b] none false).2 [c7a, c7b] (by rfl)⟩

/-! ## Persistence -/

/-- A candidate in a recoverable state (absent, `OSError`, or
`JSONDecodeError`) is skipped and the next candidate is tried. -/
theorem loadLoop_skip (fs : FileSys) (rest : List Str) (path : Str)
    (h : recoverableB (fs path) = true) :
    loadLoop fs (path :: rest) = loadLoop fs rest := by
  cases hfs : fs path with
  | absent => simp [loadLoop, hfs]
  | osError => simp [loadLoop, hfs]
  | badJson => simp [loadLoop, hfs]
  | json v =>
    rw [hfs] at h
    exact absurd h (by simp [recoverableB])

/-- When every candidate is in a recoverable state, the loop returns the
empty collection. -/
theorem loadLoop_all_recoverable (fs : FileSys) :
    ∀ (ps : List Str), (∀ p ∈ ps, recoverableB (fs p) = true) → loadLoop fs ps = .ok [] := by
  intro ps
  induction ps with
  | nil => intro _; rfl
  | cons p rest ih =>
    intro h
    rw [loadLoop_skip fs rest p (h p (by simp))]
    exact ih (fun q hq => h q (by simp [hq]))

/-- C3 (amended): `load_transactions` recovers from the faults it
catches — a missing candidate, an `OSError`, or invalid JSON — by trying
the next candidate, and returns the empty collection when every candidate
is in such a state; however a candidate holding valid JSON that does not
conform to the record schema makes the whole call raise (see the
counterexample). -/
theorem c3_load_recovers_caught_faults :
    (∀ (fs : FileSys) (rest : List Str) (path : Str),
        recoverableB (fs path) = true → loadLoop fs (path :: rest) = loadLoop fs rest)
    ∧ (∀ (fs : FileSys) (filename : Str),
        (∀ p ∈ load_candidates filename, recoverableB (fs p) = true) →
          load_transactions fs filename = .ok []) :=
  ⟨loadLoop_skip, fun fs filename h => loadLoop_all_recoverable fs (load_candidates filename) h⟩

/-- C3 counterexample: a requested file holding the valid JSON `[{}]`
(an object with no `id` key) makes `load_transactions` raise an uncaught
`KeyError` instead of recovering. -/
theorem c3_nonconforming_json_faults :
    load_transactions c3fs "data.json".data = .error .keyError := by rfl

/-- C3 witness: the amended theorem applied to a filesystem on which every
read raises `OSError`. -/
theorem c3_load_recovers_caught_faults_witness :
    loadLoop c3fsOsErr ("a".data :: ["b".data]) = loadLoop c3fsOsErr ["b".data]
    ∧ load_transactions c3fsOsErr "data.json".data = .ok [] :=
  ⟨c3_load_recovers_caught_faults.1 c3fsOsErr ["b".data] "a".data (by rfl),
    c3_load_recovers_caught_faults.2 c3fsOsErr "data.json".data (by decide)⟩

/-- Truncating the rational image of an integer returns the integer. -/
theorem ratTrunc_intCast (n : ℤ) : ratTrunc (n : ℚ) = n := by
  unfold ratTrunc
  rw [Rat.intCast_num, Rat.intCast_den]
  simp

/-- Deserializing a serialized record restores it field by field. -/
theorem from_dict_to_dict (t : Transaction) :
    Transaction.from_dict (Transaction.to_dict t) = .ok t := by
  simp [Transaction.to_dict, Transaction.from_dict, objGet?, objGetD, pyInt, pyFloat,
    pyStr, ratTrunc_intCast]

/-- Deserializing a serialized collection restores it. -/
theorem fromDictAll_map_to_dict (txs : List Transaction) :
    fromDictAll (txs.map Transaction.to_dict) = .ok txs := by
  induction txs with
  | nil => rfl
  | cons t rest ih => simp [fromDictAll, from_dict_to_dict, ih]

/-- The requested path is always the first load candidate. -/
theorem load_candidates_cons (filename : Str) :
    ∃ rest, load_candidates filename = filename :: rest := by
  simp only [load_candidates]
  split_ifs <;> exact ⟨_, rfl⟩

/-- C4: saving a collection to a writable path and loading that path back
returns a collection equal to the original in length and in every field
of every record (here: equal as lists of records). -/
theorem c4_save_load_roundtrip (fs : FileSys) (writable openFails : Str → Bool)
    (txs : List Transaction) (filename : Str) (_hne : txs ≠ [])
    (hw : writable filename = true) (ho : openFails filename = false) :
    (save_transactions fs writable openFails txs filename).2 = true
    ∧ load_transactions (save_transactions fs writable openFails txs filename).1 filename =
        .ok txs := by
  have hsave : save_transactions fs writable openFails txs filename =
      ((fun p => if p = filename
          then FileState.json (.jarr (txs.map Transaction.to_dict)) else fs p), true) := by
    simp only [save_transactions]
    rw [if_pos hw, if_neg (by simp [ho])]
  rw [hsave]
  refine ⟨rfl, ?_⟩
  obtain ⟨rest, hcand⟩ := load_candidates_cons filename
  unfold load_transactions
  rw [hcand]
  have hfs : (fun p => if p = filename
      then FileState.json (.jarr (txs.map Transaction.to_dict)) else fs p) filename =
      FileState.json (.jarr (txs.map Transaction.to_dict)) := by simp
  simp [loadLoop, hfs, parseRecords, pyIterate, fromDictAll_map_to_dict]

/-- C4 witness: the round trip on the self-test pair through an empty
filesystem with a writable target. -/
theorem c4_save_load_roundtrip_witness :
    (save_transactions c4fs allWritable neverFails c1txs "data.json".data).2 = true
    ∧ load_transactions
        (save_transactions c4fs allWritable neverFails c1txs "data.json".data).1
        "data.json".data = .ok c1txs :=
  c4_save_load_roundtrip c4fs allWritable neverFails c1txs "data.json".data (by decide)
    rfl rfl
